import Mathlib

/-!
Verification of the gerrit-linter check-execution core: a shallow embedding of
the polling scheduler (`cmd/checker/checker.go`), the checker-UUID codec, the
check executor, and the formatter registry with its commit-message and
commit-footer strategies (`server.go`), together with proofs of the functional
properties stated for them.

Go strings are modelled as Lean `String` (one `Char` per Go byte; all the
behaviour under study is on ASCII data, where Go's byte-wise operations and
the character-wise model coincide).  Go's standard-library string functions
used by the sources are re-implemented below with structural recursion so that
every definition evaluates by `decide` / `rfl`.
-/

/-- Auxiliary splitter: Go `strings.Split(s, sep)` for a one-character
separator, accumulating the current field in reverse. -/
def splitCharAux (sep : Char) : List Char → List Char → List (List Char)
  | [], acc => [acc.reverse]
  | c :: cs, acc =>
    if c = sep then acc.reverse :: splitCharAux sep cs []
    else splitCharAux sep cs (c :: acc)

/-- Go `strings.Split(s, sep)` for a one-character separator `sep`. -/
def goSplitChar (s : String) (sep : Char) : List String :=
  (splitCharAux sep s.data []).map (fun l => ⟨l⟩)

/-- Auxiliary splitter for the two-character separator `"\n\n"` used by
`checkCommitFooter` (Go `strings.Split(message, "\n\n")`, leftmost
non-overlapping occurrences). -/
def splitNNAux : List Char → List Char → List (List Char)
  | [], acc => [acc.reverse]
  | [c], acc => [(c :: acc).reverse]
  | c1 :: c2 :: cs, acc =>
    if c1 = '\n' ∧ c2 = '\n' then acc.reverse :: splitNNAux cs []
    else splitNNAux (c2 :: cs) (c1 :: acc)

/-- Go `strings.Split(s, "\x5cn\x5cn")`: split on blank-line boundaries. -/
def goSplitNN (s : String) : List String :=
  (splitNNAux s.data []).map (fun l => ⟨l⟩)

/-- Auxiliary splitter: Go `strings.SplitN(s, sep, 2)` for a one-character
separator: split at the first occurrence only. -/
def splitN2Aux (sep : Char) : List Char → List Char → List String
  | [], acc => [⟨acc.reverse⟩]
  | c :: cs, acc =>
    if c = sep then [⟨acc.reverse⟩, ⟨cs⟩] else splitN2Aux sep cs (c :: acc)

/-- Go `strings.SplitN(s, sep, 2)` for a one-character separator `sep`. -/
def goSplitN2 (s : String) (sep : Char) : List String :=
  splitN2Aux sep s.data []

/-- Go `len(s)` (byte length; characters in this model). -/
def goLen (s : String) : Nat := s.data.length

/-- Go `strings.HasPrefix(s, pre)`. -/
def goStartsWith (s pre : String) : Bool := pre.data.isPrefixOf s.data

/-- Go `strings.HasSuffix(s, suf)`. -/
def goEndsWith (s suf : String) : Bool := suf.data.isSuffixOf s.data

/-- Go `strings.TrimPrefix(s, pre)`. -/
def goTrimPre (s pre : String) : String :=
  if goStartsWith s pre then ⟨s.data.drop pre.data.length⟩ else s

/-- Go slice expression `s[n:]`. -/
def goDropN (s : String) (n : Nat) : String := ⟨s.data.drop n⟩

/-- Go slice expression `s[:n]`. -/
def goTakeN (s : String) (n : Nat) : String := ⟨s.data.take n⟩

/-- Go `strings.Join(elems, sep)`. -/
def goJoin (sep : String) : List String → String
  | [] => ""
  | [x] => x
  | x :: xs => x ++ sep ++ goJoin sep xs

/-- Model of Go `%q` formatting (`strconv.Quote`) for one character,
restricted to the escapes that can arise from the data under study; Go
additionally escapes non-printable characters not exercised here. -/
def goQuoteChar (c : Char) : List Char :=
  if c = '"' then ['\\', '"']
  else if c = '\\' then ['\\', '\\']
  else if c = '\n' then ['\\', 'n']
  else if c = '\t' then ['\\', 't']
  else if c = '\r' then ['\\', 'r']
  else [c]

/-- Model of Go `%q` formatting of a string value. -/
def goQuote (s : String) : String :=
  ⟨'"' :: (s.data.flatMap goQuoteChar) ++ ['"']⟩

/-! ## Checker-UUID codec (`cmd/checker/checker.go`) -/

/-- `checkerScheme`: the scheme by which the linter registers in Gerrit. -/
def checkerScheme : String := "fmt"

/-- `checkerLanguage` extracts the language to check for from a checker UUID:
trim the `"fmt:"` scheme, split on every `"-"`, demand exactly two fields, and
return the first (checker.go lines 109-117). -/
def checkerLanguage (uuid : String) : String × Bool :=
  let uuid := goTrimPre uuid (checkerScheme ++ ":")
  let fields := goSplitChar uuid '-'
  if fields.length ≠ 2 then ("", false)
  else (fields.getD 0 "", true)

/-- The UUID built by `PostChecker` (checker.go line 76):
`fmt.Sprintf("%s:%s-%x", checkerScheme, language, hash.Sum(nil))`, where the
hex digest of the repository name is abstracted as the string `hashHex`. -/
def postCheckerUUID (language hashHex : String) : String :=
  checkerScheme ++ ":" ++ language ++ "-" ++ hashHex

/-! ## Polling scheduler (`processPendingChecks`, checker.go lines 206-237)

The transport call `PendingChecksByScheme` is abstracted as an
`Except ε (List α)` argument (its error, or the fetched pending list), and
`executeCheck` as a function `α → Option ε` (`some e` when the check's
execution returned the error `e`, `none` when it completed without error).
The `rand.Shuffle` call permutes the pending list in place; the embedding
processes the list in its given order, which ranges over all permutations. -/

/-- The body of the `for _, pc := range pending` loop of
`processPendingChecks`: the accumulator carries the named return `wait`
(zero-initialised to `false` in Go) and `aggregateErr`. -/
def pendingLoopStep {α ε : Type} (exec : α → Option ε) :
    Bool × Option ε → α → Bool × Option ε :=
  fun (wait, aggregateErr) pc =>
    match exec pc with
    | some e => if aggregateErr.isNone then (wait, some e) else (wait, aggregateErr)
    | none => (false, aggregateErr)

/-- `processPendingChecks` (checker.go lines 206-237): returns
`(wait, err)`.  On a transport error it returns `wait = true`; on an empty
pending list it returns `wait = true`; otherwise it folds the execution loop
over the pending entries starting from `(false, none)` — `wait` being a Go
named return value zero-initialised to `false`. -/
def processPendingChecks {α ε : Type} (pendingRes : Except ε (List α))
    (exec : α → Option ε) : Bool × Option ε :=
  match pendingRes with
  | .error e => (true, some e)
  | .ok pending =>
    if pending.isEmpty then (true, none)
    else pending.foldl (pendingLoopStep exec) (false, none)

/-- `Serve` (checker.go lines 192-203) sleeps after a round exactly when
`processPendingChecks` returned `wait = true`. -/
def serveSleeps {α ε : Type} (pendingRes : Except ε (List α))
    (exec : α → Option ε) : Bool :=
  (processPendingChecks pendingRes exec).1

/-! ## Check states (checker.go lines 239-258) -/

/-- `status` encodes the checker states. -/
inductive status where
  | unset
  | irrelevant
  | running
  | fail
  | successful
deriving DecidableEq, Repr

/-- `status.String` (checker.go lines 250-258). -/
def statusString : status → String
  | .unset => "UNSET"
  | .irrelevant => "IRRELEVANT"
  | .running => "RUNNING"
  | .fail => "FAILED"
  | .successful => "SUCCESSFUL"

/-! ## Linter data model (`server.go`) -/

/-- `File`: one `{language, name, content}` triple of a `FormatRequest`
(content modelled as a string of bytes). -/
structure File where
  language : String
  name : String
  content : String
deriving DecidableEq, Repr

/-- `FormattedFile`: a file name together with its (possibly reformatted)
content and an optional diagnostic message; the Go zero values (`nil`
content, empty message) are the empty string. -/
structure FormattedFile where
  name : String
  content : String
  message : String
deriving DecidableEq, Repr

/-- The formatter strategies of `server.go` that are pure functions of their
input: the commit-message linter and the commit-footer linter parametrized by
its required footer key.  The external-tool strategy (`toolFormatter`)
performs process and file-system I/O and is outside this embedding. -/
inductive Formatter where
  | commitMsg
  | commitFooter (footer : String)
deriving DecidableEq, Repr

/-- `FormatterConfig` (server.go lines 39-48): a file-name filter (the
`Regex` field, modelled by its matching predicate), the Gerrit query
fragment, and the formatter strategy. -/
structure FormatterConfig where
  regex : String → Bool
  query : String
  formatter : Formatter

/-- The matching predicate of the anchored literal regexp `^/COMMIT_MSG$`. -/
def commitMsgRegex : String → Bool := fun n => n = "/COMMIT_MSG"

/-- The statically registered entry of the `formatters` table (server.go
lines 51-56).  The `init` function additionally registers the external-tool
entries (`java`, `bzl`, `go`) only when the corresponding binary is found on
the search path, so the table's full contents are environment-dependent; the
definitions below are therefore parametrized by an arbitrary table of which
`formattersBase` is the static part. -/
def formattersBase : List (String × FormatterConfig) :=
  [("commitmsg", { regex := commitMsgRegex, query := "", formatter := .commitMsg })]

/-- Go map lookup `formatters[lang]` on an association-list table. -/
def lookupTable (table : List (String × FormatterConfig)) (lang : String) :
    Option FormatterConfig :=
  match table.find? (fun p => p.1 = lang) with
  | some p => some p.2
  | none => none

/-- `GetFormatter` (server.go lines 107-120): identifiers bearing the
reserved `"commitfooter-"` family marker resolve dynamically to a freshly
constructed commit-footer strategy whose required key is the suffix
(`lang[len(footerPrefix):]`) and whose filter is `^/COMMIT_MSG$`; all other
identifiers are looked up in the static table. -/
def GetFormatter (table : List (String × FormatterConfig)) (lang : String) :
    Option FormatterConfig :=
  let footerPre := "commitfooter-"
  if goStartsWith lang footerPre then
    some { regex := commitMsgRegex, query := "",
           formatter := .commitFooter (goDropN lang (goLen footerPre)) }
  else lookupTable table lang

/-- `splitByLang` (server.go lines 138-144): the group that the Go map
`res[lang]` holds after the loop — the files of `in` with language `lang`,
in order (`append` preserves encounter order). -/
def splitByLang (files : List File) (lang : String) : List File :=
  files.filter (fun f => f.language = lang)

/-- The distinct languages of the request, in first-encounter order: the key
set of the Go map built by `splitByLang` (Go map iteration order is
unspecified; first-encounter order is the representative used here). -/
def langKeysAux : List String → List String → List String
  | [], _ => []
  | x :: xs, seen =>
    if seen.contains x then langKeysAux xs seen else x :: langKeysAux xs (x :: seen)

/-- The key set of `splitByLang`'s result, in first-encounter order. -/
def langKeys (files : List File) : List String :=
  langKeysAux (files.map (fun f => f.language)) []

/-! ## Commit-message linter (server.go lines 173-207) -/

/-- `checkCommitMessage` (server.go lines 188-207): the first violated rule
wins — at least two lines; the line after the subject no longer than one
character; the subject at most 70 characters; the subject not ending in
a period.  No violation returns the empty complaint. -/
def checkCommitMessage (msg : String) : String :=
  let lines := goSplitChar msg '\n'
  if lines.length < 2 then "must have multiple lines"
  else if 1 < goLen (lines.getD 1 "") then
    "subject and body must be separated by blank line"
  else if 70 < goLen (lines.getD 0 "") then "subject must be less than 70 chars"
  else if goEndsWith (lines.getD 0 "") "." then "subject must not end in \x27.\x27"
  else ""

/-! ## Commit-footer linter (server.go lines 209-258) -/

/-- The `for _, l := range lines` loop of `checkCommitFooter` (server.go
lines 238-257): split each line at the first colon, skip lines with fewer
than two fields or whose key differs from the required footer; on the first
key match return the space-after-colon complaint or the empty complaint;
falling off the loop returns the not-found complaint. -/
def footerLoop (footer : String) : List String → String
  | [] => "footer " ++ goQuote footer ++ " not found"
  | l :: ls =>
    match goSplitN2 l ':' with
    | [k, value] =>
      if k ≠ footer then footerLoop footer ls
      else if ¬ goStartsWith value " " then
        "footer " ++ goQuote value ++ " should have space after \x27:\x27"
      else ""
    | _ => footerLoop footer ls

/-- `checkCommitFooter` (server.go lines 226-258): an empty required footer
is itself a complaint; the message must split into at least two paragraphs
on blank-line boundaries; the lines of the last paragraph are then scanned
by `footerLoop`. -/
def checkCommitFooter (message footer : String) : String :=
  if goLen footer = 0 then "required footer should be non-empty"
  else
    let blocks := goSplitNN message
    if blocks.length < 2 then "gerrit changes must have two paragraphs."
    else footerLoop footer (goSplitChar (blocks.getLastD "") '\n')

/-- The key of a footer line: the first field of the split at the first
colon, defined only when the split yields two fields. -/
def lineKey (l : String) : Option String :=
  match goSplitN2 l ':' with
  | [k, _] => some k
  | _ => none

/-- The value of a footer line: the second field of the split at the first
colon (empty when the line has no colon). -/
def lineValue (l : String) : String :=
  match goSplitN2 l ':' with
  | [_, v] => v
  | _ => ""

/-! ## Formatter strategies and `Format` (server.go lines 147-224) -/

/-- Running a pure formatter strategy on one same-language batch.  Both the
commit-message and the commit-footer strategies read `in[0]` without a guard;
`none` models the Go runtime index-out-of-range panic on an empty batch.  The
second component of the result is the `outSink` buffer, which neither
strategy writes. -/
def runFormatter : Formatter → List File → Option (List FormattedFile × String)
  | .commitMsg, [] => none
  | .commitMsg, f :: _ =>
    let complaint := checkCommitMessage f.content
    if complaint ≠ "" then
      some ([{ name := f.name, content := "", message := complaint }], "")
    else some ([{ name := f.name, content := f.content, message := "" }], "")
  | .commitFooter _, [] => none
  | .commitFooter footer, f :: _ =>
    let complaint := checkCommitFooter f.content footer
    if complaint ≠ "" then
      some ([{ name := f.name, content := "", message := complaint }], "")
    else some ([{ name := f.name, content := f.content, message := "" }], "")

/-- The errors `Format` can return, together with the out-of-range panic of
an unguarded `in[0]` access (which in Go would crash, not return). -/
inductive FormatErr where
  | emptyLanguage (name : String)
  | noFormatter (lang : String)
  | outOfRange
deriving DecidableEq, Repr

/-- server.go lines 165-167: when the strategy returned at least one file
and left its first message empty, the captured `outSink` buffer becomes the
first file's message. -/
def applyBufMessage (out : List FormattedFile) (buf : String) : List FormattedFile :=
  match out with
  | [] => []
  | f :: rest => if f.message = "" then { f with message := buf } :: rest else f :: rest

/-- The per-language dispatch loop of `Format` (server.go lines 154-169),
over the key set of `splitByLang`'s map. -/
def formatLangs (table : List (String × FormatterConfig)) (files : List File) :
    List String → Except FormatErr (List FormattedFile)
  | [] => .ok []
  | lang :: rest =>
    match GetFormatter table lang with
    | none => .error (.noFormatter lang)
    | some cfg =>
      match runFormatter cfg.formatter (splitByLang files lang) with
      | none => .error .outOfRange
      | some (out, buf) =>
        match formatLangs table files rest with
        | .error e => .error e
        | .ok acc => .ok (applyBufMessage out buf ++ acc)

/-- `Format` (server.go lines 147-171): reject the first file with an empty
language, then format each per-language batch and concatenate the results. -/
def Format (table : List (String × FormatterConfig)) (files : List File) :
    Except FormatErr (List FormattedFile) :=
  match files.find? (fun f => f.language = "") with
  | some f => .error (.emptyLanguage f.name)
  | none => formatLangs table files (langKeys files)

/-! ## Check execution (`checkChange` / `executeCheck`, checker.go) -/

/-- The error outcomes of `checkChange` (checker.go lines 136-190). -/
inductive CheckErr where
  | irrelevant
  | langNotConfigured (lang : String)
  | unknownFile (name : String)
  | formatFailed (e : FormatErr)
deriving DecidableEq, Repr

/-- The error strings carried by `checkChange`'s error values. -/
def checkErrMessage : CheckErr → String
  | .irrelevant => "irrelevant"
  | .langNotConfigured lang => "language " ++ goQuote lang ++ " not configured"
  | .unknownFile n => "result had unknown file " ++ goQuote n
  | .formatFailed (.emptyLanguage n) => "file " ++ goQuote n ++ " has empty language"
  | .formatFailed (.noFormatter lang) => "linter: no formatter for " ++ goQuote lang
  | .formatFailed .outOfRange => "runtime error: index out of range"

/-- The request-building loop of `checkChange` (checker.go lines 141-157):
for each file of the revision (the `ch.Files` map, modelled as an
association list of name-content pairs), resolve the language's formatter
configuration — `linter.Formatters[language]`, modelled from the spec's
registry contract (resolve a language identifier to a filter and strategy or
not-found) by `GetFormatter`, the exported `Formatters` map not being among
the sources — fail when it is missing, and keep the files matching its
file-name filter. -/
def buildRequest (table : List (String × FormatterConfig))
    (language : String) : List (String × String) → Except CheckErr (List File)
  | [] => .ok []
  | (n, content) :: rest =>
    match GetFormatter table language with
    | none => .error (.langNotConfigured language)
    | some cfg =>
      match buildRequest table language rest with
      | .error e => .error e
      | .ok req =>
        if cfg.regex n then
          .ok ({ language := language, name := n, content := content } :: req)
        else .ok req

/-- The comparison loop of `checkChange` (checker.go lines 171-187): each
returned file must name a file of the revision; a file whose content is not
byte-equal to the original contributes the complaint
`"<file>: <message-or-found a difference>"`; a byte-equal file contributes
nothing. -/
def compareFiles (chFiles : List (String × String)) :
    List FormattedFile → Except CheckErr (List String)
  | [] => .ok []
  | f :: rest =>
    match (chFiles.find? (fun p => p.1 = f.name)).map (fun p => p.2) with
    | none => .error (.unknownFile f.name)
    | some orig =>
      match compareFiles chFiles rest with
      | .error e => .error e
      | .ok msgs =>
        if f.content ≠ orig then
          .ok ((f.name ++ ": " ++ (if f.message = "" then "found a difference" else f.message)) :: msgs)
        else .ok msgs

/-- `checkChange` (checker.go lines 136-190) for one fetched revision,
parametrized over the format service `fmtFn` (instantiated with
`Format table` in the assembled system): build the request, short-circuit to
the `errIrrelevant` sentinel when it is empty, otherwise format and compare.
The transport fetch `GetChange` is the `chFiles` argument. -/
def checkChange (table : List (String × FormatterConfig))
    (fmtFn : List File → Except FormatErr (List FormattedFile))
    (chFiles : List (String × String)) (language : String) :
    Except CheckErr (List String) :=
  match buildRequest table language chFiles with
  | .error e => .error e
  | .ok req =>
    if req.isEmpty then .error .irrelevant
    else
      match fmtFn req with
      | .error e => .error (.formatFailed e)
      | .ok out => compareFiles chFiles out

/-- The verdict portion of `executeCheck` (checker.go lines 277-300) for one
checker UUID, given the outcome of `checkChange`: undecodable UUID or errors
map to `FAILED`, the irrelevant sentinel to `IRRELEVANT`, no complaints to
`SUCCESSFUL`; complaints are joined with `", "` and hard-truncated at 1000
characters to a 995-character cut plus `"..."`. -/
def executeCheckVerdict (uuid : String) (res : Except CheckErr (List String)) :
    status × String :=
  let (_, ok) := checkerLanguage uuid
  if ¬ ok then (.fail, "uuid " ++ goQuote uuid ++ " has unknown language")
  else
    let st : status × List String :=
      match res with
      | .error .irrelevant => (.irrelevant, [])
      | .error e => (.fail, ["tool failure: " ++ checkErrMessage e])
      | .ok [] => (.successful, [])
      | .ok msgs => (.fail, msgs)
    let msg := goJoin ", " st.2
    let msg := if 1000 < goLen msg then goTakeN msg 995 ++ "..." else msg
    (st.1, msg)

/-! ## Shared lemmas about the Go string helpers -/

theorem string_mk_data (s : String) : String.mk s.data = s := by
  cases s
  rfl

theorem goLen_eq_zero_iff (s : String) : goLen s = 0 ↔ s = "" := by
  cases s with
  | mk data =>
    simp only [goLen, List.length_eq_zero]
    constructor
    · intro h
      subst h
      rfl
    · intro h
      have hd : data = ("" : String).data := congrArg String.data h
      simpa using hd

theorem goStartsWith_append (p s : String) : goStartsWith (p ++ s) p = true := by
  simp [goStartsWith, List.isPrefixOf]

theorem goEndsWith_append (s suf : String) : goEndsWith (s ++ suf) suf = true := by
  simp [goEndsWith, List.isSuffixOf]

theorem goDropN_append (p s : String) : goDropN (p ++ s) (goLen p) = s := by
  simp only [goDropN, goLen, String.data_append, List.drop_left]

theorem goLen_append (s t : String) : goLen (s ++ t) = goLen s + goLen t := by
  simp [goLen]

theorem goLen_goTakeN_le (s : String) (n : Nat) : goLen (goTakeN s n) ≤ n := by
  simp [goLen, goTakeN]

theorem splitCharAux_no_sep (sep : Char) (l acc : List Char) (h : sep ∉ l) :
    splitCharAux sep l acc = [acc.reverse ++ l] := by
  induction l generalizing acc with
  | nil => simp [splitCharAux]
  | cons c cs ih =>
    have hc : ¬(c = sep) := fun hce => h (hce ▸ List.mem_cons_self c cs)
    have hcs : sep ∉ cs := fun hm => h (List.mem_cons_of_mem c hm)
    simp only [splitCharAux, if_neg hc, ih _ hcs, List.reverse_cons]
    simp

theorem splitCharAux_with_sep (sep : Char) (l1 l2 acc : List Char) (h : sep ∉ l1) :
    splitCharAux sep (l1 ++ sep :: l2) acc =
      (acc.reverse ++ l1) :: splitCharAux sep l2 [] := by
  induction l1 generalizing acc with
  | nil => simp [splitCharAux]
  | cons c cs ih =>
    have hc : ¬(c = sep) := fun hce => h (hce ▸ List.mem_cons_self c cs)
    have hcs : sep ∉ cs := fun hm => h (List.mem_cons_of_mem c hm)
    simp only [List.cons_append, splitCharAux, if_neg hc, List.append_eq]
    rw [ih (c :: acc) hcs]
    simp

/-! ## Claim theorems -/

/-- C1: on a non-empty pending round in which every entry's execution
returns an error, `processPendingChecks` is claimed to take the no-progress
branch (`wait = true`).  The code returns `wait = false` on such a round —
`wait` is a named return zero-initialised to `false` and the loop only ever
assigns `false` to it — so `Serve` does not sleep; the second conjunct
records the (held) immediate-repeat half of the claim on a round whose only
entry completes without error. -/
theorem processPendingChecks_all_error_round_no_sleep :
    processPendingChecks (Except.ok [0]) (fun _ => some "post failure") =
      (false, some "post failure") ∧
    serveSleeps (Except.ok [0]) (fun _ => some "post failure") = false ∧
    processPendingChecks (Except.ok [0]) (fun _ => (none : Option String)) =
      (false, none) := by
  refine ⟨rfl, rfl, rfl⟩

/-- C2: `checkerLanguage` on the UUID `"fmt:commitfooter-Change-Id.1234"` —
the input of the repository's own `TestSchemeLanguage`, which expects the
language `"commitfooter-Change-Id"` — returns `("", false)`: the remainder
after the scheme splits at every `"-"` into three fields, not two. -/
theorem checkerLanguage_commitfooter_uuid_fails :
    checkerLanguage "fmt:commitfooter-Change-Id.1234" = ("", false) ∧
    checkerLanguage "fmt:commitfooter-Change-Id.1234" ≠
      ("commitfooter-Change-Id", true) := by
  refine ⟨by decide, by decide⟩

/-- C8 counterexample: for the language `"commitfooter-Change-Id"` and the
SHA-1 hex digest of the empty repository name, decoding the encoded UUID
does not return the language (the claim demands `("commitfooter-Change-Id",
true)`), so the claimed universal round-trip fails. -/
theorem postCheckerUUID_roundtrip_fails_on_dashed_language :
    checkerLanguage (postCheckerUUID "commitfooter-Change-Id"
        "da39a3ee5e6b4b0d3255bfef95601890afd80709") = ("", false) := by
  decide

/-- C8 (amended): for every language identifier free of `"-"` and every
hash digest free of `"-"` (hex digests are), decoding the encoded checker
UUID returns the language, and re-encoding the decoded language with the
same hash reproduces the original UUID bit-exactly. -/
theorem postCheckerUUID_roundtrip (language hashHex : String)
    (hl : '-' ∉ language.data) (hh : '-' ∉ hashHex.data) :
    checkerLanguage (postCheckerUUID language hashHex) = (language, true) ∧
    postCheckerUUID
        (checkerLanguage (postCheckerUUID language hashHex)).1 hashHex =
      postCheckerUUID language hashHex := by
  have key : checkerLanguage (postCheckerUUID language hashHex) = (language, true) := by
    have hdata : (postCheckerUUID language hashHex).data =
        (checkerScheme ++ ":").data ++ (language.data ++ '-' :: hashHex.data) := by
      simp [postCheckerUUID, checkerScheme]
    have htrim : goTrimPre (postCheckerUUID language hashHex) (checkerScheme ++ ":") =
        ⟨language.data ++ '-' :: hashHex.data⟩ := by
      simp only [goTrimPre, goStartsWith, hdata]
      rw [if_pos (by simp [List.isPrefixOf])]
      simp [checkerScheme]
    have hsplit : goSplitChar ⟨language.data ++ '-' :: hashHex.data⟩ '-' =
        [language, hashHex] := by
      simp only [goSplitChar]
      rw [splitCharAux_with_sep '-' language.data hashHex.data [] hl,
        splitCharAux_no_sep '-' hashHex.data [] hh]
      simp [string_mk_data]
    simp only [checkerLanguage, htrim, hsplit]
    simp
  refine ⟨key, ?_⟩
  rw [key]

/-- Witness for the amended C8 round-trip at a concrete dash-free language
and the SHA-1 digest of the empty string. -/
theorem postCheckerUUID_roundtrip_witness :
    checkerLanguage (postCheckerUUID "commitmsg"
        "da39a3ee5e6b4b0d3255bfef95601890afd80709") = ("commitmsg", true) :=
  (postCheckerUUID_roundtrip "commitmsg"
    "da39a3ee5e6b4b0d3255bfef95601890afd80709" (by decide) (by decide)).1

/-- C9: every identifier of the `commitfooter-` family resolves to a freshly
constructed commit-footer strategy whose required key is exactly the suffix
after the family marker and whose file filter matches only the
commit-message pseudo-file; every identifier outside the family that is
absent from the table resolves to `none` — an explicit not-found signal, not
a crash. -/
theorem GetFormatter_resolution (table : List (String × FormatterConfig))
    (lang : String) :
    (∀ suffix, lang = "commitfooter-" ++ suffix →
      ∃ cfg, GetFormatter table lang = some cfg ∧
        cfg.formatter = Formatter.commitFooter suffix ∧
        ∀ n, cfg.regex n = true ↔ n = "/COMMIT_MSG") ∧
    (goStartsWith lang "commitfooter-" = false → lookupTable table lang = none →
      GetFormatter table lang = none) := by
  constructor
  · intro suffix hs
    subst hs
    have hget : GetFormatter table ("commitfooter-" ++ suffix) =
        some { regex := commitMsgRegex, query := "",
               formatter := .commitFooter suffix } := by
      simp only [GetFormatter]
      rw [if_pos (goStartsWith_append "commitfooter-" suffix)]
      rw [goDropN_append "commitfooter-" suffix]
    exact ⟨_, hget, rfl, fun n => by simp [commitMsgRegex]⟩
  · intro h1 h2
    simp only [GetFormatter]
    rw [if_neg (by simp [h1]), h2]

/-- Witness for C9 at the identifier `"commitfooter-Change-Id"` over the
empty table. -/
theorem GetFormatter_resolution_witness :
    ∃ cfg, GetFormatter [] "commitfooter-Change-Id" = some cfg ∧
      cfg.formatter = Formatter.commitFooter "Change-Id" ∧
      ∀ n, cfg.regex n = true ↔ n = "/COMMIT_MSG" :=
  (GetFormatter_resolution [] "commitfooter-Change-Id").1 "Change-Id" rfl

/-- C3: `checkCommitMessage` reports the complaint of the first violated
rule in the fixed order — fewer than two lines, second line longer than one
character, first line longer than 70 characters, first line ending in a
period — and reports the empty complaint when no rule is violated, in which
case the commit-message strategy passes the content back unchanged. -/
theorem checkCommitMessage_first_violation (msg : String) :
    ((goSplitChar msg '\n').length < 2 →
      checkCommitMessage msg = "must have multiple lines") ∧
    (2 ≤ (goSplitChar msg '\n').length →
      1 < goLen ((goSplitChar msg '\n').getD 1 "") →
      checkCommitMessage msg = "subject and body must be separated by blank line") ∧
    (2 ≤ (goSplitChar msg '\n').length →
      goLen ((goSplitChar msg '\n').getD 1 "") ≤ 1 →
      70 < goLen ((goSplitChar msg '\n').getD 0 "") →
      checkCommitMessage msg = "subject must be less than 70 chars") ∧
    (2 ≤ (goSplitChar msg '\n').length →
      goLen ((goSplitChar msg '\n').getD 1 "") ≤ 1 →
      goLen ((goSplitChar msg '\n').getD 0 "") ≤ 70 →
      goEndsWith ((goSplitChar msg '\n').getD 0 "") "." = true →
      checkCommitMessage msg = "subject must not end in \x27.\x27") ∧
    (2 ≤ (goSplitChar msg '\n').length →
      goLen ((goSplitChar msg '\n').getD 1 "") ≤ 1 →
      goLen ((goSplitChar msg '\n').getD 0 "") ≤ 70 →
      goEndsWith ((goSplitChar msg '\n').getD 0 "") "." = false →
      checkCommitMessage msg = "" ∧
      ∀ nm rest, runFormatter Formatter.commitMsg
          ({ language := "commitmsg", name := nm, content := msg } :: rest) =
        some ([{ name := nm, content := msg, message := "" }], "")) := by
  refine ⟨?_, ?_, ?_, ?_, ?_⟩
  · intro h1
    simp only [checkCommitMessage]
    rw [if_pos h1]
  · intro h1 h2
    simp only [checkCommitMessage]
    rw [if_neg (by omega), if_pos h2]
  · intro h1 h2 h3
    simp only [checkCommitMessage]
    rw [if_neg (by omega), if_neg (by omega), if_pos h3]
  · intro h1 h2 h3 h4
    simp only [checkCommitMessage]
    rw [if_neg (by omega), if_neg (by omega), if_neg (by omega), if_pos h4]
  · intro h1 h2 h3 h4
    have hempty : checkCommitMessage msg = "" := by
      simp only [checkCommitMessage]
      rw [if_neg (by omega), if_neg (by omega), if_neg (by omega),
        if_neg (by rw [h4]; simp)]
    refine ⟨hempty, ?_⟩
    intro nm rest
    simp [runFormatter, hempty]

/-- Witness for C3 at the single-line message of the repository's own
commit-message test. -/
theorem checkCommitMessage_first_violation_witness :
    checkCommitMessage "abc" = "must have multiple lines" :=
  (checkCommitMessage_first_violation "abc").1 (by decide)

/-- C6: for a checked UUID with a decodable language, zero complaints from
`checkChange` give the terminal state `SUCCESSFUL` with an empty message;
one or more complaints give `FAILED` with the complaints joined by `", "`;
and whenever the joined message exceeds 1000 characters the posted message
is the 995-character cut plus `"..."` — at most 1000 characters and ending
in the ellipsis marker. -/
theorem executeCheckVerdict_complaints (uuid lang : String) (msgs : List String)
    (h : checkerLanguage uuid = (lang, true)) :
    (msgs = [] →
      executeCheckVerdict uuid (Except.ok msgs) = (status.successful, "")) ∧
    (msgs ≠ [] →
      (executeCheckVerdict uuid (Except.ok msgs)).1 = status.fail) ∧
    (msgs ≠ [] → goLen (goJoin ", " msgs) ≤ 1000 →
      (executeCheckVerdict uuid (Except.ok msgs)).2 = goJoin ", " msgs) ∧
    (1000 < goLen (goJoin ", " msgs) →
      goLen (executeCheckVerdict uuid (Except.ok msgs)).2 ≤ 1000 ∧
      goEndsWith (executeCheckVerdict uuid (Except.ok msgs)).2 "..." = true) := by
  have htrunc : ∀ s : String, goLen (goTakeN s 995 ++ "...") ≤ 1000 ∧
      goEndsWith (goTakeN s 995 ++ "...") "..." = true := by
    intro s
    constructor
    · have h1 := goLen_goTakeN_le s 995
      rw [goLen_append]
      have h3 : goLen "..." = 3 := by decide
      omega
    · exact goEndsWith_append (goTakeN s 995) "..."
  have hreduce : ∀ (m : String) (rest : List String),
      executeCheckVerdict uuid (Except.ok (m :: rest)) =
        (status.fail,
          if 1000 < goLen (goJoin ", " (m :: rest))
          then goTakeN (goJoin ", " (m :: rest)) 995 ++ "..."
          else goJoin ", " (m :: rest)) := by
    intro m rest
    simp [executeCheckVerdict, h]
  refine ⟨?_, ?_, ?_, ?_⟩
  · intro hnil
    subst hnil
    simp [executeCheckVerdict, h, goJoin, goLen]
  · intro hne
    obtain ⟨m, rest, rfl⟩ := List.exists_cons_of_ne_nil hne
    rw [hreduce]
  · intro hne hle
    obtain ⟨m, rest, rfl⟩ := List.exists_cons_of_ne_nil hne
    rw [hreduce]
    rw [if_neg (show ¬(1000 < goLen (goJoin ", " (m :: rest))) by omega)]
  · intro hgt
    cases msgs with
    | nil =>
      exact absurd hgt (by simp [goJoin, goLen])
    | cons m rest =>
      rw [hreduce, if_pos hgt]
      exact htrunc (goJoin ", " (m :: rest))

/-- Witness for C6 at a decodable UUID and a single complaint. -/
theorem executeCheckVerdict_complaints_witness :
    (executeCheckVerdict "fmt:commitmsg-deadbeef"
      (Except.ok ["/COMMIT_MSG: must have multiple lines"])).1 = status.fail :=
  ((executeCheckVerdict_complaints "fmt:commitmsg-deadbeef" "commitmsg"
    ["/COMMIT_MSG: must have multiple lines"] (by decide)).2.1) (by decide)

/-- C5 counterexample: a returned file carrying a strategy-supplied message
whose content is byte-equal to the original contributes no complaint — the
comparison loop of `checkChange` logs OK and moves on — contradicting the
claim that such a file contributes `"<file>: <message>"`. -/
theorem compareFiles_message_on_equal_content :
    compareFiles [("f", "x")] [⟨"f", "x", "strategy message"⟩] = Except.ok [] ∧
    ¬ ∃ msgs, compareFiles [("f", "x")] [⟨"f", "x", "strategy message"⟩] =
        Except.ok msgs ∧ "f: strategy message" ∈ msgs := by
  refine ⟨rfl, ?_⟩
  rintro ⟨msgs, heq, hmem⟩
  have h0 : compareFiles [("f", "x")] [⟨"f", "x", "strategy message"⟩] =
      Except.ok ([] : List String) := rfl
  rw [h0] at heq
  injection heq with h1
  rw [← h1] at hmem
  simp at hmem

/-- C5 (amended): the comparison step contributes the complaint
`"<file>: <message-or-found a difference>"` for exactly those returned files
whose content differs byte-wise from the original (all returned names being
known); a returned file whose content is byte-equal to the original
contributes no complaint, even when it carries a strategy-supplied
message. -/
theorem compareFiles_diff_complaints (chFiles : List (String × String))
    (repFiles : List FormattedFile)
    (h : ∀ f ∈ repFiles,
      ((chFiles.find? (fun p => p.1 = f.name)).map (fun p => p.2)).isSome) :
    compareFiles chFiles repFiles = Except.ok
      ((repFiles.filter (fun f =>
          !((chFiles.find? (fun p => p.1 = f.name)).map (fun p => p.2) ==
            some f.content))).map
        (fun f => f.name ++ ": " ++
          (if f.message = "" then "found a difference" else f.message))) := by
  induction repFiles with
  | nil => rfl
  | cons f rest ih =>
    have hf := h f (List.mem_cons_self f rest)
    obtain ⟨orig, horig⟩ := Option.isSome_iff_exists.mp hf
    have hrest := ih (fun g hg => h g (List.mem_cons_of_mem f hg))
    simp only [compareFiles, horig, hrest, List.filter_cons]
    by_cases hc : f.content = orig
    · simp [hc]
    · simp [hc, Ne.symm hc]

/-- Witness for the amended C5 at one differing file. -/
theorem compareFiles_diff_complaints_witness :
    compareFiles [("a", "x")] [⟨"a", "y", "m"⟩] = Except.ok ["a: m"] :=
  compareFiles_diff_complaints [("a", "x")] [⟨"a", "y", "m"⟩] (by decide)

/-- When the resolved file-name filter matches no file of the revision, the
request-building loop of `checkChange` keeps nothing. -/
theorem buildRequest_no_match (table : List (String × FormatterConfig))
    (lang : String) (cfg : FormatterConfig)
    (hcfg : GetFormatter table lang = some cfg)
    (chFiles : List (String × String))
    (hnm : ∀ p ∈ chFiles, cfg.regex p.1 = false) :
    buildRequest table lang chFiles = Except.ok [] := by
  induction chFiles with
  | nil => rfl
  | cons p rest ih =>
    have hn := hnm p (List.mem_cons_self p rest)
    have hrest := ih (fun q hq => hnm q (List.mem_cons_of_mem p hq))
    simp only [buildRequest, hcfg, hrest]
    simp [hn]

/-- C7: when no file of the fetched revision matches the checker language's
file-name filter, `checkChange` returns the irrelevant sentinel for every
format service — no formatter strategy is consulted — and the executor maps
that sentinel to the `IRRELEVANT` state with an empty message; moreover
`checkChange`'s result only ever depends on the format service's behaviour
on non-empty requests, so every `FormatRequest` passed on to a formatter
strategy is non-empty. -/
theorem checkChange_irrelevant_short_circuit
    (table : List (String × FormatterConfig)) (chFiles : List (String × String))
    (lang : String) (cfg : FormatterConfig)
    (hcfg : GetFormatter table lang = some cfg)
    (hnm : ∀ p ∈ chFiles, cfg.regex p.1 = false) :
    (∀ fmtFn, checkChange table fmtFn chFiles lang =
      Except.error CheckErr.irrelevant) ∧
    (∀ uuid l, checkerLanguage uuid = (l, true) →
      executeCheckVerdict uuid (Except.error CheckErr.irrelevant) =
        (status.irrelevant, "")) ∧
    (∀ fmtFn fmtFn',
      (∀ req, req ≠ [] → fmtFn req = fmtFn' req) →
      checkChange table fmtFn chFiles lang =
        checkChange table fmtFn' chFiles lang) := by
  refine ⟨?_, ?_, ?_⟩
  · intro fmtFn
    simp only [checkChange, buildRequest_no_match table lang cfg hcfg chFiles hnm]
    rfl
  · intro uuid l hl
    simp [executeCheckVerdict, hl, goJoin, goLen]
  · intro fmtFn fmtFn' hag
    cases hb : buildRequest table lang chFiles with
    | error e => simp [checkChange, hb]
    | ok req =>
      simp only [checkChange, hb]
      by_cases hreq : req.isEmpty
      · simp [hreq]
      · have hne : req ≠ [] := by
          simpa [List.isEmpty_iff] using hreq
        rw [if_neg (by simp [hreq]), if_neg (by simp [hreq]), hag req hne]

/-- Witness for C7: a revision whose only file does not match the
commit-message filter is irrelevant for the `commitmsg` checker. -/
theorem checkChange_irrelevant_short_circuit_witness :
    checkChange formattersBase (fun _ => Except.ok []) [("a.go", "zz")]
      "commitmsg" = Except.error CheckErr.irrelevant :=
  (checkChange_irrelevant_short_circuit formattersBase [("a.go", "zz")]
    "commitmsg" { regex := commitMsgRegex, query := "", formatter := .commitMsg }
    rfl (by decide)).1 (fun _ => Except.ok [])

/-- Membership in the first-encounter key list implies membership in the
underlying language list. -/
theorem mem_langKeysAux (l : List String) (seen : List String) (x : String)
    (h : x ∈ langKeysAux l seen) : x ∈ l := by
  induction l generalizing seen with
  | nil => simp [langKeysAux] at h
  | cons y ys ih =>
    by_cases hy : seen.contains y
    · simp only [langKeysAux, if_pos hy] at h
      exact List.mem_cons_of_mem y (ih _ h)
    · simp only [langKeysAux, if_neg hy] at h
      rcases List.mem_cons.mp h with h | h
      · exact h ▸ List.mem_cons_self y ys
      · exact List.mem_cons_of_mem y (ih _ h)

/-- A non-empty batch never takes a strategy's out-of-range path: both pure
strategies return a result on any batch with a first element. -/
theorem runFormatter_isSome (fm : Formatter) (batch : List File)
    (h : batch ≠ []) : (runFormatter fm batch).isSome = true := by
  cases fm with
  | commitMsg =>
    cases batch with
    | nil => exact absurd rfl h
    | cons f rest =>
      simp only [runFormatter]
      split <;> rfl
  | commitFooter footer =>
    cases batch with
    | nil => exact absurd rfl h
    | cons f rest =>
      simp only [runFormatter]
      split <;> rfl

/-- The per-language dispatch loop never reaches the out-of-range panic when
every dispatched key has a non-empty batch. -/
theorem formatLangs_no_panic (table : List (String × FormatterConfig))
    (files : List File) (keys : List String)
    (h : ∀ lang ∈ keys, splitByLang files lang ≠ []) :
    formatLangs table files keys ≠ Except.error FormatErr.outOfRange := by
  induction keys with
  | nil => simp [formatLangs]
  | cons lang rest ih =>
    simp only [formatLangs]
    cases hget : GetFormatter table lang with
    | none => simp
    | some cfg =>
      have hb := h lang (List.mem_cons_self lang rest)
      have hrun := runFormatter_isSome cfg.formatter (splitByLang files lang) hb
      obtain ⟨out, hout⟩ := Option.isSome_iff_exists.mp hrun
      obtain ⟨o1, o2⟩ := out
      dsimp only
      rw [hout]
      have ihe := ih (fun l hl => h l (List.mem_cons_of_mem lang hl))
      cases hrec : formatLangs table files rest with
      | error e =>
        rw [hrec] at ihe
        exact ihe
      | ok acc => simp

/-- C10: for every request accepted by `Format` (every file has a non-empty
language), each per-language batch handed to a strategy contains at least
one file — `splitByLang` only creates a group by appending a file to it —
and consequently `Format` never reaches the strategies' unguarded first
element access. -/
theorem Format_batches_nonempty (table : List (String × FormatterConfig))
    (files : List File) (_hacc : ∀ f ∈ files, f.language ≠ "") :
    (∀ lang ∈ langKeys files, splitByLang files lang ≠ []) ∧
    Format table files ≠ Except.error FormatErr.outOfRange := by
  have hkeys : ∀ lang ∈ langKeys files, splitByLang files lang ≠ [] := by
    intro lang hl
    have hmem : lang ∈ files.map (fun f => f.language) :=
      mem_langKeysAux (files.map (fun f => f.language)) [] lang (by exact hl)
    obtain ⟨f, hf, hfl⟩ := List.mem_map.mp hmem
    intro hempty
    have hmemf : f ∈ splitByLang files lang := by
      simp only [splitByLang]
      exact List.mem_filter.mpr ⟨hf, by simp [hfl]⟩
    rw [hempty] at hmemf
    simp at hmemf
  refine ⟨hkeys, ?_⟩
  simp only [Format]
  cases hfind : files.find? (fun f => f.language = "") with
  | some f => simp
  | none => exact formatLangs_no_panic table files (langKeys files) hkeys

/-- Witness for C10 at the commit-message pseudo-file request. -/
theorem Format_batches_nonempty_witness :
    Format formattersBase [⟨"commitmsg", "/COMMIT_MSG", "abc"⟩] ≠
      Except.error FormatErr.outOfRange :=
  (Format_batches_nonempty formattersBase [⟨"commitmsg", "/COMMIT_MSG", "abc"⟩]
    (by decide)).2

/-- The footer scan returns the not-found complaint when no line's key
matches, and otherwise judges the first key-matching line: the empty
complaint when its value begins with a space, the space-after-colon
complaint when it does not. -/
theorem footerLoop_filter (footer : String) (lines : List String) :
    footerLoop footer lines =
      match lines.filter (fun l => lineKey l == some footer) with
      | [] => "footer " ++ goQuote footer ++ " not found"
      | m :: _ =>
        if goStartsWith (lineValue m) " " then ""
        else "footer " ++ goQuote (lineValue m) ++
          " should have space after \x27:\x27" := by
  induction lines with
  | nil => rfl
  | cons l ls ih =>
    simp only [List.filter_cons]
    cases hsplit : goSplitN2 l ':' with
    | nil =>
      have hkey : lineKey l = none := by simp [lineKey, hsplit]
      simp only [footerLoop, hsplit, hkey]
      simpa using ih
    | cons k rest =>
      cases rest with
      | nil =>
        have hkey : lineKey l = none := by simp [lineKey, hsplit]
        simp only [footerLoop, hsplit, hkey]
        simpa using ih
      | cons v rest2 =>
        cases rest2 with
        | nil =>
          have hkey : lineKey l = some k := by simp [lineKey, hsplit]
          have hval : lineValue l = v := by simp [lineValue, hsplit]
          by_cases hk : k = footer
          · subst hk
            by_cases hsp : goStartsWith v " " = true <;>
              simp [footerLoop, hsplit, hkey, hval, hsp]
          · have hkeyne : (lineKey l == some footer) = false := by
              simp [hkey, hk]
            simp only [footerLoop, hsplit, hkeyne]
            rw [if_pos hk]
            simpa using ih
        | cons w rest3 =>
          have hkey : lineKey l = none := by simp [lineKey, hsplit]
          simp only [footerLoop, hsplit, hkey]
          simpa using ih

/-- C4: for every message and non-empty required footer key,
`checkCommitFooter` complains about paragraphs when the blank-line split
yields fewer than two; otherwise it scans the lines of the last paragraph,
splitting each at the first colon and skipping lines whose key differs: the
not-found complaint when no line carries the required key, no complaint when
the first key-matching line's value begins with a space, and the
missing-space complaint when it does not. -/
theorem checkCommitFooter_cases (msg key : String) (hk : key ≠ "") :
    ((goSplitNN msg).length < 2 →
      checkCommitFooter msg key = "gerrit changes must have two paragraphs.") ∧
    (2 ≤ (goSplitNN msg).length →
      ((goSplitChar ((goSplitNN msg).getLastD "") '\n').filter
          (fun l => lineKey l == some key) = [] →
        checkCommitFooter msg key = "footer " ++ goQuote key ++ " not found") ∧
      (∀ m ms, (goSplitChar ((goSplitNN msg).getLastD "") '\n').filter
          (fun l => lineKey l == some key) = m :: ms →
        (goStartsWith (lineValue m) " " = true →
          checkCommitFooter msg key = "") ∧
        (goStartsWith (lineValue m) " " = false →
          checkCommitFooter msg key = "footer " ++ goQuote (lineValue m) ++
            " should have space after \x27:\x27"))) := by
  have hklen : ¬ (goLen key = 0) := fun h0 => hk ((goLen_eq_zero_iff key).mp h0)
  constructor
  · intro hlt
    simp only [checkCommitFooter]
    rw [if_neg hklen, if_pos hlt]
  · intro hge
    have hbody : checkCommitFooter msg key =
        footerLoop key (goSplitChar ((goSplitNN msg).getLastD "") '\n') := by
      simp only [checkCommitFooter]
      rw [if_neg hklen, if_neg (by omega)]
    constructor
    · intro hnone
      rw [hbody, footerLoop_filter, hnone]
    · intro m ms hcons
      rw [hbody, footerLoop_filter, hcons]
      constructor
      · intro hsp
        simp [hsp]
      · intro hsp
        simp [hsp]

/-- Witness for C4 at the single-paragraph message of the repository's own
commit-footer test. -/
theorem checkCommitFooter_cases_witness :
    checkCommitFooter "abc" "myfooter" =
      "gerrit changes must have two paragraphs." :=
  (checkCommitFooter_cases "abc" "myfooter" (by decide)).1 (by decide)
